import Mathlib

/-!
Verification of the Redfin housing-data ETL pipeline.

The development shallowly embeds the two stages of the pipeline:

* the transformer `filter_data` (pandas code in `src/redfin_load` notebook
  appended to the Dockerfile): a table is a `List RawRow`; pandas
  `Series.str.replace(pat, "", regex=False)` (which replaces every
  non-overlapping occurrence, scanning left to right) is embedded as
  `removeAll` on `List Char`; the boolean-mask selection, `dropna` and
  `query` steps are embedded as `List.filter`; `max()` over the string
  column `period_end` is the lexicographic maximum over code points,
  embedded by `lexLt` / `strMax` (an empty column has maximum `none`,
  the embedding of pandas `NaN`).

* the fetcher `fetch_data` (in `src/src/redfin_load.ipynb`): the HTTP
  response is a status plus a body; `requests.raise_for_status` raises
  `HTTPError` exactly for statuses in `[400, 600)`; the `try/except`
  that re-raises `SystemExit(err)` is embedded in `fetch_data`, which
  returns the final state of the destination file together with the
  outcome of the call.
-/

namespace Redfin

/-- If `p` is a leading block of `s`, return the remainder of `s` after
`p`; otherwise `none`.  This is the single-position test used both by
substring search and by the replace scan. -/
def dropPref? : List Char → List Char → Option (List Char)
  | [], s => some s
  | _ :: _, [] => none
  | a :: p, b :: s => if a = b then dropPref? p s else none

/-- Python's `pat in s` substring test: `p` occurs (contiguously) in `s`. -/
def containsSub (p : List Char) : List Char → Bool
  | [] => (dropPref? p []).isSome
  | c :: s => (dropPref? p (c :: s)).isSome || containsSub p s

theorem dropPref_eq_some_iff (p : List Char) :
    ∀ (s r : List Char), dropPref? p s = some r ↔ s = p ++ r := by
  induction p with
  | nil =>
    intro s r
    simp [dropPref?]
  | cons a p ih =>
    intro s r
    cases s with
    | nil => simp [dropPref?]
    | cons b s =>
      by_cases hab : a = b
      · subst hab
        simp [dropPref?, ih]
      · simp [dropPref?, hab, Ne.symm hab]

theorem dropPref_append (p r : List Char) : dropPref? p (p ++ r) = some r :=
  (dropPref_eq_some_iff p (p ++ r) r).mpr rfl

/-- The scanning loop of Python `s.replace(p, "")`, with explicit fuel.
With `fuel ≥ s.length` (and a non-empty pattern) the fuel never runs out. -/
def removeAllF (p : List Char) : Nat → List Char → List Char
  | _, [] => []
  | 0, s => s
  | fuel + 1, c :: s' =>
    match dropPref? p (c :: s') with
    | some rest => removeAllF p fuel rest
    | none => c :: removeAllF p fuel s'

/-- Embedding of Python `s.replace(p, "")` (all non-overlapping
occurrences, scanning left to right), as used by
`Series.str.replace(p, "", regex=False)` with the default `n=-1`. -/
def removeAll (p s : List Char) : List Char :=
  removeAllF p s.length s

theorem removeAllF_fuel (p : List Char) (hp : p ≠ []) :
    ∀ (fuel fuel' : Nat) (s : List Char), s.length ≤ fuel → s.length ≤ fuel' →
      removeAllF p fuel s = removeAllF p fuel' s := by
  intro fuel
  induction fuel with
  | zero =>
    intro fuel' s hs _
    cases s with
    | nil => cases fuel' <;> rfl
    | cons c s' => simp at hs
  | succ f ih =>
    intro fuel' s hs hs'
    cases s with
    | nil => cases fuel' <;> rfl
    | cons c s' =>
      cases fuel' with
      | zero => simp at hs'
      | succ f' =>
        simp only [List.length_cons] at hs hs'
        cases hdp : dropPref? p (c :: s') with
        | some rest =>
          have hcs : (c :: s') = p ++ rest := (dropPref_eq_some_iff p _ _).mp hdp
          have hl : s'.length + 1 = p.length + rest.length := by
            have := congrArg List.length hcs
            simpa using this
          have hp1 : 0 < p.length := List.length_pos.mpr hp
          simp only [removeAllF, hdp]
          exact ih f' rest (by omega) (by omega)
        | none =>
          simp only [removeAllF, hdp]
          rw [ih f' s' (by omega) (by omega)]

theorem removeAll_nil (p : List Char) : removeAll p [] = [] := rfl

theorem removeAll_cons_some {p : List Char} {c : Char} {s' rest : List Char}
    (h : dropPref? p (c :: s') = some rest) :
    removeAll p (c :: s') = removeAll p rest := by
  by_cases hp : p = []
  · subst hp
    simp [dropPref?] at h
    rw [h]
  · have hcs : (c :: s') = p ++ rest := (dropPref_eq_some_iff p _ _).mp h
    have hl : s'.length + 1 = p.length + rest.length := by
      have := congrArg List.length hcs
      simpa using this
    have hp1 : 0 < p.length := List.length_pos.mpr hp
    show removeAllF p (c :: s').length (c :: s') = removeAllF p rest.length rest
    simp only [List.length_cons, removeAllF, h]
    exact removeAllF_fuel p hp _ _ rest (by omega) (by omega)

theorem removeAll_cons_none {p : List Char} {c : Char} {s' : List Char}
    (h : dropPref? p (c :: s') = none) :
    removeAll p (c :: s') = c :: removeAll p s' := by
  show removeAllF p (c :: s').length (c :: s') = c :: removeAllF p s'.length s'
  simp only [List.length_cons, removeAllF, h]

theorem containsSub_nil_pat (s : List Char) : containsSub [] s = true := by
  cases s <;> simp [containsSub, dropPref?]

/-- If the replaced pattern occurs nowhere in `s`, the replace scan is the
identity. -/
theorem removeAll_of_not_contains {p s : List Char}
    (h : containsSub p s = false) : removeAll p s = s := by
  induction s with
  | nil => exact removeAll_nil p
  | cons c s' ih =>
    simp only [containsSub, Bool.or_eq_false_iff] at h
    obtain ⟨h1, h2⟩ := h
    cases hdp : dropPref? p (c :: s') with
    | some rest => rw [hdp] at h1; simp at h1
    | none => rw [removeAll_cons_none hdp, ih h2]

theorem containsSub_append_left {q b : List Char} (t : List Char)
    (h : containsSub q b = true) : containsSub q (b ++ t) = true := by
  induction b with
  | nil =>
    have hq : q = [] := by
      cases q with
      | nil => rfl
      | cons a q' => simp [containsSub, dropPref?] at h
    subst hq
    exact containsSub_nil_pat t
  | cons c b' ih =>
    show ((dropPref? q (c :: (b' ++ t))).isSome || containsSub q (b' ++ t)) = true
    simp only [containsSub, Bool.or_eq_true] at h
    rcases h with h | h
    · cases hdp : dropPref? q (c :: b') with
      | none => rw [hdp] at h; simp at h
      | some r =>
        have h2 : dropPref? q (c :: (b' ++ t)) = some (r ++ t) := by
          apply (dropPref_eq_some_iff q _ _).mpr
          have h3 := (dropPref_eq_some_iff q _ _).mp hdp
          rw [show c :: (b' ++ t) = (c :: b') ++ t from rfl, h3, List.append_assoc]
        rw [h2]
        simp
    · rw [ih h]
      simp

theorem containsSub_false_of_append {q b t : List Char}
    (h : containsSub q (b ++ t) = false) : containsSub q b = false := by
  cases hc : containsSub q b with
  | false => rfl
  | true => rw [containsSub_append_left t hc] at h; cases h

/-- The heart of the suffix-stripping argument: if the pattern `p` occurs
nowhere in `b ++ p` except as the final suffix (no occurrence fits inside
the string minus its last character), then the replace scan removes
exactly that suffix. -/
theorem removeAll_append_self {p b : List Char} (hp : p ≠ [])
    (h : containsSub p (b ++ p).dropLast = false) :
    removeAll p (b ++ p) = b := by
  induction b with
  | nil =>
    simp only [List.nil_append]
    cases p with
    | nil => exact absurd rfl hp
    | cons a p' =>
      have hdp : dropPref? (a :: p') ((a :: p') ++ ([] : List Char)) = some [] :=
        dropPref_append _ _
      simp only [List.append_nil] at hdp
      rw [removeAll_cons_some hdp, removeAll_nil]
  | cons c b' ih =>
    have hne : b' ++ p ≠ [] := by
      intro he
      rcases List.append_eq_nil.mp he with ⟨-, hp'⟩
      exact hp hp'
    have hdl : ((c :: b') ++ p).dropLast = c :: (b' ++ p).dropLast := by
      simp only [List.cons_append]
      exact List.dropLast_cons_of_ne_nil hne
    rw [hdl] at h
    simp only [containsSub, Bool.or_eq_false_iff] at h
    obtain ⟨h1, h2⟩ := h
    have hnone : dropPref? p ((c :: b') ++ p) = none := by
      cases hdp : dropPref? p ((c :: b') ++ p) with
      | none => rfl
      | some rest =>
        exfalso
        have hcs : (c :: b') ++ p = p ++ rest := (dropPref_eq_some_iff p _ _).mp hdp
        have hrne : rest ≠ [] := by
          intro he
          subst he
          have hlen := congrArg List.length hcs
          simp at hlen
          omega
        have : ((c :: b') ++ p).dropLast = p ++ rest.dropLast := by
          rw [hcs]
          exact List.dropLast_append_of_ne_nil _ hrne
        have hsome : dropPref? p (((c :: b') ++ p).dropLast) = some rest.dropLast := by
          rw [this]
          exact dropPref_append _ _
        rw [hdl] at hsome
        rw [hsome] at h1
        simp at h1
    have hstep : removeAll p ((c :: b') ++ p) = c :: removeAll p (b' ++ p) := by
      simp only [List.cons_append] at hnone ⊢
      exact removeAll_cons_none hnone
    rw [hstep, ih h2]

/-- The first pattern removed by `filter_data`: `" County"`. -/
def countyPat : List Char := " County".data

/-- The second pattern removed by `filter_data`: `" Parish"`. -/
def parishPat : List Char := " Parish".data

/-- The third pattern removed by `filter_data`: `" Census Area"`. -/
def censusAreaPat : List Char := " Census Area".data

/-- The fourth pattern removed by `filter_data`: `" Borough"`. -/
def boroughPat : List Char := " Borough".data

/-- The cleaning chain of `filter_data`: the four
`.str.replace(pat, "", regex=False)` calls, applied in source order. -/
def cleanChars (cs : List Char) : List Char :=
  removeAll boroughPat (removeAll censusAreaPat (removeAll parishPat (removeAll countyPat cs)))

/-- String-level wrapper of `cleanChars`. -/
def cleanName (s : String) : String := ⟨cleanChars s.data⟩

/-- Removal of only the FIRST occurrence of `p`, scanning left to right.
This follows the specification's words ("removing the first occurrence
only"), written down to compare with the code's `removeAll`. -/
def removeFirst (p : List Char) : List Char → List Char
  | [] => []
  | c :: s' =>
    match dropPref? p (c :: s') with
    | some rest => rest
    | none => c :: removeFirst p s'

/-- The cleaning chain as the specification words it: first occurrence
only, for each pattern in order. -/
def cleanCharsSpecFirst (cs : List Char) : List Char :=
  removeFirst boroughPat (removeFirst censusAreaPat (removeFirst parishPat (removeFirst countyPat cs)))

/-- String-level wrapper of `cleanCharsSpecFirst`. -/
def cleanNameSpecFirst (s : String) : String := ⟨cleanCharsSpecFirst s.data⟩

/-- `cs` ends with the block `p`. -/
def endsWithSub (p cs : List Char) : Bool :=
  cs.drop (cs.length - p.length) == p

/-- `cs` contains none of the four patterns removed by `filter_data`. -/
def noPatterns (cs : List Char) : Bool :=
  !containsSub countyPat cs && !containsSub parishPat cs &&
    !containsSub censusAreaPat cs && !containsSub boroughPat cs

/-- Benign region names: either no pattern occurs at all, or exactly one
pattern occurs, as the final suffix, and no pattern fits in the string
minus its last character.  For such names the cleaning chain provably
leaves no pattern behind (for adversarial names it can, by splicing). -/
def goodNameB (cs : List Char) : Bool :=
  noPatterns cs ||
  (endsWithSub countyPat cs && !containsSub countyPat cs.dropLast &&
    !containsSub parishPat cs && !containsSub censusAreaPat cs && !containsSub boroughPat cs) ||
  (endsWithSub parishPat cs && !containsSub parishPat cs.dropLast &&
    !containsSub countyPat cs && !containsSub censusAreaPat cs && !containsSub boroughPat cs) ||
  (endsWithSub censusAreaPat cs && !containsSub censusAreaPat cs.dropLast &&
    !containsSub countyPat cs && !containsSub parishPat cs && !containsSub boroughPat cs) ||
  (endsWithSub boroughPat cs && !containsSub boroughPat cs.dropLast &&
    !containsSub countyPat cs && !containsSub parishPat cs && !containsSub censusAreaPat cs)

theorem endsWith_decomp {p cs : List Char} (h : endsWithSub p cs = true) :
    ∃ b, cs = b ++ p := by
  refine ⟨cs.take (cs.length - p.length), ?_⟩
  have hd : cs.drop (cs.length - p.length) = p := by
    have := h
    unfold endsWithSub at this
    exact eq_of_beq this
  conv_lhs => rw [← List.take_append_drop (cs.length - p.length) cs]
  rw [hd]

theorem noPat_of_end {b p : List Char} (hp : p ≠ [])
    (hdl : containsSub p ((b ++ p).dropLast) = false) :
    containsSub p b = false := by
  rw [List.dropLast_append_of_ne_nil b hp] at hdl
  exact containsSub_false_of_append hdl

theorem clean_end_county {b : List Char}
    (hdl : containsSub countyPat ((b ++ countyPat).dropLast) = false)
    (hPa : containsSub parishPat (b ++ countyPat) = false)
    (hCA : containsSub censusAreaPat (b ++ countyPat) = false)
    (hBo : containsSub boroughPat (b ++ countyPat) = false) :
    cleanChars (b ++ countyPat) = b := by
  unfold cleanChars
  rw [removeAll_append_self (by decide) hdl,
    removeAll_of_not_contains (containsSub_false_of_append hPa),
    removeAll_of_not_contains (containsSub_false_of_append hCA),
    removeAll_of_not_contains (containsSub_false_of_append hBo)]

theorem clean_end_parish {b : List Char}
    (hdl : containsSub parishPat ((b ++ parishPat).dropLast) = false)
    (hCo : containsSub countyPat (b ++ parishPat) = false)
    (hCA : containsSub censusAreaPat (b ++ parishPat) = false)
    (hBo : containsSub boroughPat (b ++ parishPat) = false) :
    cleanChars (b ++ parishPat) = b := by
  unfold cleanChars
  rw [removeAll_of_not_contains hCo,
    removeAll_append_self (by decide) hdl,
    removeAll_of_not_contains (containsSub_false_of_append hCA),
    removeAll_of_not_contains (containsSub_false_of_append hBo)]

theorem clean_end_censusArea {b : List Char}
    (hdl : containsSub censusAreaPat ((b ++ censusAreaPat).dropLast) = false)
    (hCo : containsSub countyPat (b ++ censusAreaPat) = false)
    (hPa : containsSub parishPat (b ++ censusAreaPat) = false)
    (hBo : containsSub boroughPat (b ++ censusAreaPat) = false) :
    cleanChars (b ++ censusAreaPat) = b := by
  unfold cleanChars
  rw [removeAll_of_not_contains hCo,
    removeAll_of_not_contains hPa,
    removeAll_append_self (by decide) hdl,
    removeAll_of_not_contains (containsSub_false_of_append hBo)]

theorem clean_end_borough {b : List Char}
    (hdl : containsSub boroughPat ((b ++ boroughPat).dropLast) = false)
    (hCo : containsSub countyPat (b ++ boroughPat) = false)
    (hPa : containsSub parishPat (b ++ boroughPat) = false)
    (hCA : containsSub censusAreaPat (b ++ boroughPat) = false) :
    cleanChars (b ++ boroughPat) = b := by
  unfold cleanChars
  rw [removeAll_of_not_contains hCo,
    removeAll_of_not_contains hPa,
    removeAll_of_not_contains hCA,
    removeAll_append_self (by decide) hdl]

/-- For benign region names, the cleaning chain of `filter_data` leaves a
string containing none of the four patterns. -/
theorem noPatterns_cleanChars {cs : List Char} (h : goodNameB cs = true) :
    noPatterns (cleanChars cs) = true := by
  simp only [goodNameB, noPatterns, Bool.or_eq_true, Bool.and_eq_true,
    Bool.not_eq_true', and_assoc, or_assoc] at h ⊢
  rcases h with ⟨h1, h2, h3, h4⟩ | ⟨he, hdl, h2, h3, h4⟩ | ⟨he, hdl, h2, h3, h4⟩ |
    ⟨he, hdl, h2, h3, h4⟩ | ⟨he, hdl, h2, h3, h4⟩
  · have hc : cleanChars cs = cs := by
      unfold cleanChars
      rw [removeAll_of_not_contains h1, removeAll_of_not_contains h2,
        removeAll_of_not_contains h3, removeAll_of_not_contains h4]
    rw [hc]
    exact ⟨h1, h2, h3, h4⟩
  · obtain ⟨b, rfl⟩ := endsWith_decomp he
    rw [clean_end_county hdl h2 h3 h4]
    exact ⟨noPat_of_end (by decide) hdl, containsSub_false_of_append h2,
      containsSub_false_of_append h3, containsSub_false_of_append h4⟩
  · obtain ⟨b, rfl⟩ := endsWith_decomp he
    rw [clean_end_parish hdl h2 h3 h4]
    exact ⟨containsSub_false_of_append h2, noPat_of_end (by decide) hdl,
      containsSub_false_of_append h3, containsSub_false_of_append h4⟩
  · obtain ⟨b, rfl⟩ := endsWith_decomp he
    rw [clean_end_censusArea hdl h2 h3 h4]
    exact ⟨containsSub_false_of_append h2, containsSub_false_of_append h3,
      noPat_of_end (by decide) hdl, containsSub_false_of_append h4⟩
  · obtain ⟨b, rfl⟩ := endsWith_decomp he
    rw [clean_end_borough hdl h2 h3 h4]
    exact ⟨containsSub_false_of_append h2, containsSub_false_of_append h3,
      containsSub_false_of_append h4, noPat_of_end (by decide) hdl⟩

/-- Lexicographic comparison of character lists by code point: the order
Python uses on `str` and hence the order behind `Series.max()` on the
string-typed `period_end` column. -/
def lexLt : List Char → List Char → Bool
  | [], [] => false
  | [], _ :: _ => true
  | _ :: _, [] => false
  | a :: as, b :: bs =>
    if a.toNat < b.toNat then true
    else if b.toNat < a.toNat then false
    else lexLt as bs

theorem lexLt_irrefl (s : List Char) : lexLt s s = false := by
  induction s with
  | nil => rfl
  | cons a as ih => simp [lexLt, ih]

theorem lexLt_asymm : ∀ {s t : List Char}, lexLt s t = true → lexLt t s = false := by
  intro s
  induction s with
  | nil =>
    intro t h
    cases t with
    | nil => simp [lexLt] at h
    | cons b bs => rfl
  | cons a as ih =>
    intro t h
    cases t with
    | nil => simp [lexLt] at h
    | cons b bs =>
      by_cases hab : a.toNat < b.toNat
      · have hba : ¬ b.toNat < a.toNat := by omega
        simp [lexLt, hab, hba]
      · by_cases hba : b.toNat < a.toNat
        · simp [lexLt, hab, hba] at h
        · simp only [lexLt, if_neg hab, if_neg hba] at h
          simp only [lexLt, if_neg hba, if_neg hab]
          exact ih h

theorem lexLt_false_trans :
    ∀ {s t u : List Char}, lexLt s t = false → lexLt t u = false → lexLt s u = false := by
  intro s
  induction s with
  | nil =>
    intro t u h1 h2
    cases t with
    | nil => exact h2
    | cons b bs => simp [lexLt] at h1
  | cons a as ih =>
    intro t u h1 h2
    cases t with
    | nil =>
      cases u with
      | nil => rfl
      | cons c cs => simp [lexLt] at h2
    | cons b bs =>
      cases u with
      | nil => rfl
      | cons c cs =>
        by_cases hab : a.toNat < b.toNat
        · simp [lexLt, hab] at h1
        · by_cases hbc : b.toNat < c.toNat
          · simp [lexLt, hbc] at h2
          · by_cases hac : a.toNat < c.toNat
            · exfalso
              omega
            · by_cases hca : c.toNat < a.toNat
              · simp [lexLt, hac, hca]
              · have hba : ¬ b.toNat < a.toNat := by omega
                have hcb : ¬ c.toNat < b.toNat := by omega
                simp only [lexLt, if_neg hab, if_neg hba] at h1
                simp only [lexLt, if_neg hbc, if_neg hcb] at h2
                simp only [lexLt, if_neg hac, if_neg hca]
                exact ih h1 h2

/-- Python `a < b` on strings (code-point lexicographic). -/
def strLtB (a b : String) : Bool := lexLt a.data b.data

/-- Binary maximum of two strings under the Python string order. -/
def strMax (a b : String) : String := if strLtB a b then b else a

theorem strMax_cases (a b : String) : strMax a b = a ∨ strMax a b = b := by
  unfold strMax
  split
  · right; rfl
  · left; rfl

theorem strMax_not_lt_left (a b : String) : strLtB (strMax a b) a = false := by
  unfold strMax
  split
  · next h => exact lexLt_asymm h
  · exact lexLt_irrefl _

theorem strMax_not_lt_right (a b : String) : strLtB (strMax a b) b = false := by
  unfold strMax
  split
  · exact lexLt_irrefl _
  · next h => simpa [strLtB] using Bool.of_not_eq_true h

theorem strMax_not_lt_trans {m t : String} (a : String) (h : strLtB m t = false) :
    strLtB (strMax a m) t = false := by
  unfold strMax
  split
  · exact h
  · next ha =>
    have ha' : strLtB a m = false := Bool.of_not_eq_true ha
    exact lexLt_false_trans ha' h

/-- A loaded row of the raw Redfin table, restricted (as the loader is)
to the five projected columns.  `median_sale_price` is `none` where the
source has a missing value (pandas `NaN`). -/
structure RawRow where
  period_end : String
  region_type : String
  region_name : String
  duration : String
  median_sale_price : Option Int
deriving DecidableEq, Repr

/-- A row of the transformer's output: the `region_name` column cleaned
and renamed to `county`, plus `median_sale_price`. -/
structure CleanRow where
  county : String
  median_sale_price : Option Int
deriving DecidableEq, Repr

/-- `df['period_end'].max()`: the maximum of the string column over ALL
loaded rows; `none` (pandas `NaN`) on an empty table. -/
def maxPeriodEnd : List RawRow → Option String
  | [] => none
  | r :: rs =>
    match maxPeriodEnd rs with
    | none => some r.period_end
    | some m => some (strMax r.period_end m)

/-- The transformer `filter_data`, step for step:
mask `region_type == 'county'` and `duration == '12 weeks'`;
`dropna(subset=['median_sale_price'])`;
`query("period_end == @max_dt")`;
projection to `[region_name, median_sale_price]`;
the four `str.replace` cleanings; rename to `county`. -/
def filter_data (df : List RawRow) : List CleanRow :=
  let max_dt := maxPeriodEnd df
  let df1 := df.filter fun r => r.region_type == "county" && r.duration == "12 weeks"
  let df2 := df1.filter fun r => r.median_sale_price.isSome
  let df3 := df2.filter fun r => some r.period_end == max_dt
  let proj := df3.map fun r => (r.region_name, r.median_sale_price)
  let cleaned := proj.map fun x => (cleanName x.1, x.2)
  cleaned.map fun x => ({ county := x.1, median_sale_price := x.2 } : CleanRow)

/-- The row-level selection predicate that `filter_data` applies, with
`m` the precomputed maximum of `period_end`. -/
def matchRow (m : Option String) (r : RawRow) : Bool :=
  (some r.period_end == m) &&
    (r.median_sale_price.isSome && (r.region_type == "county" && r.duration == "12 weeks"))

/-- What `filter_data` does to a single selected row: clean the name,
rename the column, keep the price. -/
def toClean (r : RawRow) : CleanRow :=
  { county := cleanName r.region_name, median_sale_price := r.median_sale_price }

theorem filter_data_eq_filter_map (df : List RawRow) :
    filter_data df = (df.filter (matchRow (maxPeriodEnd df))).map toClean := by
  unfold filter_data matchRow toClean
  simp only [List.filter_filter, List.map_map]
  rfl

/-- `filter_data` with the dataflow of the source made explicit as a
state pair: every pandas step (`loc` mask, `dropna`, `query`, column
projection, the column assignment, `rename`) returns a fresh table bound
to the local `df_filtered`; nothing is ever written back into the input
`df`, which is returned unchanged alongside the result. -/
def filter_data_run (df : List RawRow) : List RawRow × List CleanRow :=
  let max_dt := maxPeriodEnd df
  let df_filtered :=
    ((df.filter fun r => r.region_type == "county" && r.duration == "12 weeks").filter
        fun r => r.median_sale_price.isSome).filter
      fun r => some r.period_end == max_dt
  let projected := df_filtered.map fun r => (r.region_name, r.median_sale_price)
  let projected := projected.map fun x => (cleanName x.1, x.2)
  let renamed : List CleanRow := projected.map fun x => ⟨x.1, x.2⟩
  (df, renamed)

theorem maxPeriodEnd_eq_none_iff (df : List RawRow) :
    maxPeriodEnd df = none ↔ df = [] := by
  cases df with
  | nil => simp [maxPeriodEnd]
  | cons r rs =>
    simp only [maxPeriodEnd]
    cases maxPeriodEnd rs <;> simp

theorem maxPeriodEnd_mem :
    ∀ {df : List RawRow} {m : String}, maxPeriodEnd df = some m →
      ∃ s ∈ df, s.period_end = m := by
  intro df
  induction df with
  | nil => intro m h; cases h
  | cons r rs ih =>
    intro m h
    simp only [maxPeriodEnd] at h
    cases hrs : maxPeriodEnd rs with
    | none =>
      rw [hrs] at h
      injection h with h
      exact ⟨r, by simp, h⟩
    | some m' =>
      rw [hrs] at h
      injection h with h
      rcases strMax_cases r.period_end m' with hc | hc
      · exact ⟨r, by simp, by rw [← h, hc]⟩
      · obtain ⟨s, hs, he⟩ := ih hrs
        exact ⟨s, by simp [hs], by rw [← h, hc, he]⟩

theorem maxPeriodEnd_ub :
    ∀ {df : List RawRow} {m : String}, maxPeriodEnd df = some m →
      ∀ t ∈ df, strLtB m t.period_end = false := by
  intro df
  induction df with
  | nil => intro m h; cases h
  | cons r rs ih =>
    intro m h t ht
    simp only [maxPeriodEnd] at h
    cases hrs : maxPeriodEnd rs with
    | none =>
      rw [hrs] at h
      injection h with h
      have hnil : rs = [] := (maxPeriodEnd_eq_none_iff rs).mp hrs
      subst hnil
      simp at ht
      subst ht
      rw [← h]
      exact lexLt_irrefl _
    | some m' =>
      rw [hrs] at h
      injection h with h
      subst h
      rcases List.mem_cons.mp ht with hr | hr
      · subst hr
        exact strMax_not_lt_left _ _
      · exact strMax_not_lt_trans _ (ih hrs t hr)

/-- An HTTP response as `fetch_data` sees it: the final status (after
redirects) and the body bytes. -/
structure Resp where
  status : Nat
  content : List Nat
deriving DecidableEq, Repr

/-- The exception raised by `requests.Response.raise_for_status`,
carrying the status that produced it (the original error message). -/
inductive HTTPExc where
  | httpError (status : Nat)
deriving DecidableEq, Repr

/-- `requests.Response.raise_for_status()`: raises `HTTPError` exactly
for 4xx and 5xx statuses, and returns normally otherwise. -/
def raise_for_status (r : Resp) : Except HTTPExc Unit :=
  if 400 ≤ r.status ∧ r.status < 600 then .error (.httpError r.status) else .ok ()

/-- The observable outcome of one call of the fetcher: either a normal
return or a `SystemExit` carrying the re-raised HTTP error; in both
cases paired with the final state of the destination file. -/
inductive FetchOutcome where
  | normal (file : Option (List Nat))
  | systemExit (err : HTTPExc) (file : Option (List Nat))
deriving DecidableEq, Repr

/-- The fetcher `fetch_data`: inside `try`, issue the GET (the response
is the argument), call `raise_for_status`, and only then open and write
the destination file; the `except HTTPError` clause re-raises the caught
error as `SystemExit(err)`.  `file0` is whatever the destination path
held before the call. -/
def fetch_data (r : Resp) (file0 : Option (List Nat)) : FetchOutcome :=
  match raise_for_status r with
  | .error e => .systemExit e file0
  | .ok () => .normal (some r.content)

example : cleanName "Dallas County County" = "Dallas" := by decide
example : cleanName " Coun Countyty" = " County" := by decide
example : cleanNameSpecFirst "Dallas County County" = "Dallas County" := by decide
example : cleanName "Los Angeles County" = "Los Angeles" := by decide
example : goodNameB "Los Angeles County".data = true := by decide
example : goodNameB " Coun Countyty".data = false := by decide

theorem mem_filter_data {df : List RawRow} {r : CleanRow} (hr : r ∈ filter_data df) :
    ∃ s ∈ df, matchRow (maxPeriodEnd df) s = true ∧ r = toClean s := by
  rw [filter_data_eq_filter_map] at hr
  obtain ⟨s, hs, he⟩ := List.mem_map.mp hr
  obtain ⟨hsd, hm⟩ := List.mem_filter.mp hs
  exact ⟨s, hsd, hm, he.symm⟩

theorem matchRow_iff (m : Option String) (s : RawRow) :
    matchRow m s = true ↔
      some s.period_end = m ∧ s.median_sale_price.isSome = true ∧
        s.region_type = "county" ∧ s.duration = "12 weeks" := by
  simp [matchRow, and_assoc]

/-- A two-row table: two distinct `period_end` values, both rows county
granularity, 12-week duration, non-null price. -/
def tabTwo : List RawRow :=
  [⟨"2021-01-01", "county", "Cook County", "12 weeks", some 300000⟩,
   ⟨"2021-01-08", "county", "Los Angeles County", "12 weeks", some 800000⟩]

/-- A one-row table whose single row passes every filter. -/
def tabOne : List RawRow :=
  [⟨"2024-01-04", "county", "Los Angeles County", "12 weeks", some 800000⟩]

/-- A one-row table whose region name contains `" County"` twice. -/
def tabTwice : List RawRow :=
  [⟨"2024-01-04", "county", "Dallas County County", "12 weeks", some 100⟩]

/-- A one-row table whose region name re-forms `" County"` when the scan
removes its single occurrence and splices the neighbours together. -/
def tabSplice : List RawRow :=
  [⟨"2024-01-04", "county", " Coun Countyty", "12 weeks", some 1⟩]

/-- Claim C1, counterexample: on the row `"Dallas County County"` the
transformer removes BOTH occurrences of `" County"`, producing county
`"Dallas"`, whereas cleaning by removing the first occurrence only — the
claim's wording — would leave `"Dallas County"`.  So the cleaning is not
first-occurrence-only. -/
theorem c1_counterexample :
    filter_data tabTwice = [⟨"Dallas", some 100⟩] ∧
    cleanNameSpecFirst "Dallas County County" = "Dallas County" ∧
    ("Dallas" : String) ≠ "Dallas County" :=
  ⟨by decide, by decide, by decide⟩

/-- Claim C1 (amended): for every row selected into the output, the
transformer cleans `region_name` by removing EVERY non-overlapping
occurrence (scanning left to right, case-sensitive, anywhere in the
string) of each of the substrings `" County"`, `" Parish"`,
`" Census Area"`, `" Borough"`, applied in that order. -/
theorem c1_amended {df : List RawRow} {r : CleanRow} (hr : r ∈ filter_data df) :
    ∃ s ∈ df, r.county = cleanName s.region_name ∧
      cleanName s.region_name =
        ⟨removeAll boroughPat (removeAll censusAreaPat (removeAll parishPat
          (removeAll countyPat s.region_name.data)))⟩ := by
  obtain ⟨s, hs, -, he⟩ := mem_filter_data hr
  exact ⟨s, hs, by rw [he]; rfl, rfl⟩

theorem c1_amended_witness :
    ∃ s ∈ tabOne, (⟨"Los Angeles", some 800000⟩ : CleanRow).county = cleanName s.region_name ∧
      cleanName s.region_name =
        ⟨removeAll boroughPat (removeAll censusAreaPat (removeAll parishPat
          (removeAll countyPat s.region_name.data)))⟩ :=
  @c1_amended tabOne ⟨"Los Angeles", some 800000⟩ (by decide)

/-- Claim C2, counterexample: the input row with region name
`" Coun Countyty"` passes every filter, and removing its one occurrence
of `" County"` splices the remaining pieces into a new `" County"`; the
output county is exactly `" County"`, which contains the pattern. -/
theorem c2_counterexample :
    filter_data tabSplice = [⟨" County", some 1⟩] ∧
    containsSub countyPat (" County" : String).data = true :=
  ⟨by decide, by decide⟩

/-- Claim C2 (amended): for every input table all of whose region names
are benign — each either contains none of the four substrings, or ends
with exactly one of them and contains no other occurrence of any of the
four (`goodNameB`) — every output row's county contains none of the
literal substrings `" County"`, `" Parish"`, `" Census Area"`,
`" Borough"`.  (Unrestricted, the property fails: removing an occurrence
can splice a new one, see the counterexample.) -/
theorem c2_amended {df : List RawRow}
    (hgood : ∀ s ∈ df, goodNameB s.region_name.data = true)
    {r : CleanRow} (hr : r ∈ filter_data df) :
    noPatterns r.county.data = true := by
  obtain ⟨s, hs, -, he⟩ := mem_filter_data hr
  rw [he]
  show noPatterns (cleanChars s.region_name.data) = true
  exact noPatterns_cleanChars (hgood s hs)

theorem c2_amended_witness :
    noPatterns (⟨"Los Angeles", some 800000⟩ : CleanRow).county.data = true :=
  @c2_amended tabOne (by decide) ⟨"Los Angeles", some 800000⟩ (by decide)

/-- Claim C3: the transformer computes the maximum `period_end` over ALL
loaded rows (before any filtering), and every output row originates from
a source row whose `period_end` equals that maximum — hence no loaded
row's `period_end` exceeds the origin's. -/
theorem c3_latest_period {df : List RawRow} {r : CleanRow} (hr : r ∈ filter_data df) :
    ∃ s ∈ df, r = toClean s ∧ some s.period_end = maxPeriodEnd df ∧
      ∀ t ∈ df, strLtB s.period_end t.period_end = false := by
  obtain ⟨s, hs, hm, he⟩ := mem_filter_data hr
  have h1 := ((matchRow_iff _ _).mp hm).1
  exact ⟨s, hs, he, h1, fun t ht => maxPeriodEnd_ub h1.symm t ht⟩

theorem c3_latest_period_witness :
    ∃ s ∈ tabTwo, (⟨"Los Angeles", some 800000⟩ : CleanRow) = toClean s ∧
      some s.period_end = maxPeriodEnd tabTwo ∧
      ∀ t ∈ tabTwo, strLtB s.period_end t.period_end = false :=
  @c3_latest_period tabTwo ⟨"Los Angeles", some 800000⟩ (by decide)

/-- Claim C4: every output row originates from a source row with
`region_type = "county"`, `duration = "12 weeks"` and a non-null
`median_sale_price` (rows failing any of these never reach the output),
and every output row's `median_sale_price` is non-null. -/
theorem c4_selection {df : List RawRow} {r : CleanRow} (hr : r ∈ filter_data df) :
    (∃ s ∈ df, s.region_type = "county" ∧ s.duration = "12 weeks" ∧
        s.median_sale_price.isSome = true ∧ r = toClean s) ∧
    r.median_sale_price.isSome = true := by
  obtain ⟨s, hs, hm, he⟩ := mem_filter_data hr
  obtain ⟨h1, h2, h3, h4⟩ := (matchRow_iff _ _).mp hm
  refine ⟨⟨s, hs, h3, h4, h2, he⟩, ?_⟩
  rw [he]
  exact h2

theorem c4_selection_witness :
    (∃ s ∈ tabTwo, s.region_type = "county" ∧ s.duration = "12 weeks" ∧
        s.median_sale_price.isSome = true ∧
        (⟨"Los Angeles", some 800000⟩ : CleanRow) = toClean s) ∧
    (⟨"Los Angeles", some 800000⟩ : CleanRow).median_sale_price.isSome = true :=
  @c4_selection tabTwo ⟨"Los Angeles", some 800000⟩ (by decide)

/-- The rows of `df` that `filter_data` selects — `df` "fixed at" the
transform's post-conditions. -/
def selectRows (df : List RawRow) : List RawRow :=
  df.filter (matchRow (maxPeriodEnd df))

/-- Claim C5: if `df` already satisfies the post-conditions (every row
county granularity, 12-week duration, non-null price, `period_end`
equal to the table maximum), then transforming the table fixed at those
conditions gives the same output as transforming the table itself. -/
theorem c5_idempotent {df : List RawRow}
    (h : ∀ s ∈ df, s.region_type = "county" ∧ s.duration = "12 weeks" ∧
      s.median_sale_price.isSome = true ∧ some s.period_end = maxPeriodEnd df) :
    filter_data (selectRows df) = filter_data df := by
  have hsel : selectRows df = df := by
    apply List.filter_eq_self.mpr
    intro s hs
    obtain ⟨h1, h2, h3, h4⟩ := h s hs
    exact (matchRow_iff _ _).mpr ⟨h4, h3, h1, h2⟩
  rw [hsel]

theorem c5_idempotent_witness :
    filter_data (selectRows tabOne) = filter_data tabOne :=
  @c5_idempotent tabOne (by decide)

/-- Claim C6: when the HTTP response carries an error status (4xx/5xx,
e.g. 404), the fetch stage terminates with the fatal `SystemExit` and
the destination file is never opened or written — whatever was at the
destination before the call is still there. -/
theorem c6_no_write_on_error {r : Resp} {file0 : Option (List Nat)}
    (h : 400 ≤ r.status ∧ r.status < 600) :
    fetch_data r file0 = .systemExit (.httpError r.status) file0 := by
  unfold fetch_data raise_for_status
  rw [if_pos h]

theorem c6_no_write_on_error_witness :
    fetch_data ⟨404, [7, 7]⟩ (some [1, 2, 3]) =
      .systemExit (.httpError 404) (some [1, 2, 3]) :=
  @c6_no_write_on_error ⟨404, [7, 7]⟩ (some [1, 2, 3]) (by decide)

/-- Claim C7, counterexample: a 304 response is not a 2xx status, yet
`raise_for_status` does not raise for it — the fetcher returns normally
and writes the body to the destination file.  So "fatal error iff
non-2xx" is false on the code. -/
theorem c7_counterexample :
    fetch_data ⟨304, [9]⟩ (some [1]) = .normal (some [9]) ∧
    ¬ (200 ≤ 304 ∧ 304 < 300) :=
  ⟨by decide, by decide⟩

/-- Claim C7 (amended): the fetcher terminates fatally if and only if
the HTTP status is 4xx or 5xx (`400 ≤ status < 600`, the statuses
`raise_for_status` raises for); the error is raised inside the `try`,
caught once, and re-raised as `SystemExit` carrying the original
`HTTPError` (same status/message), with the file untouched; statuses
outside that range — including non-2xx ones such as 304 — return
normally. -/
theorem c7_amended (r : Resp) (file0 : Option (List Nat)) :
    (∃ e, fetch_data r file0 = .systemExit e file0 ∧
      raise_for_status r = .error e ∧ e = .httpError r.status) ↔
    (400 ≤ r.status ∧ r.status < 600) := by
  constructor
  · rintro ⟨e, -, hrs, -⟩
    by_cases h : 400 ≤ r.status ∧ r.status < 600
    · exact h
    · exfalso
      unfold raise_for_status at hrs
      rw [if_neg h] at hrs
      cases hrs
  · intro h
    refine ⟨.httpError r.status, ?_, ?_, rfl⟩
    · unfold fetch_data raise_for_status
      rw [if_pos h]
    · unfold raise_for_status
      rw [if_pos h]

/-- Claim C8: the transformer's output is exactly the source rows that
pass the selection predicate, in source order, each mapped to the
two-field record (`county` = cleaned `region_name`,
`median_sale_price`): one output row per matching source row, no sort. -/
theorem c8_shape (df : List RawRow) :
    filter_data df = (df.filter (matchRow (maxPeriodEnd df))).map toClean :=
  filter_data_eq_filter_map df

/-- Claim C9: `filter_data` has no side effect on its input: running it
with the dataflow made explicit returns the input table unchanged next
to the output. -/
theorem c9_no_mutation (df : List RawRow) :
    filter_data_run df = (df, filter_data df) := rfl

/-- Claim C10: on a table with the required columns but zero rows the
transformer does not fail: the maximum of `period_end` is the null value
`none`, the equality filter against it selects no rows, and the result
is the empty table of (`county`, `median_sale_price`) records. -/
theorem c10_empty_input :
    maxPeriodEnd ([] : List RawRow) = none ∧
    filter_data ([] : List RawRow) = ([] : List CleanRow) ∧
    ∀ s : RawRow, matchRow none s = false :=
  ⟨rfl, rfl, fun _ => rfl⟩

end Redfin
